import Mathlib

/-!
Verification of the dswizard successive-halving core against its
natural-language specification.

The definitions below are a shallow embedding of the Python sources:

* `src/dswizard/core/model.py`           — `CandidateId`, `Result`, `CandidateStructure`
* `src/dswizard/core/base_iteration.py`  — `BaseIteration` (the bracket state machine)
* `src/dswizard/core/config_generator_cache.py` — `ConfigGeneratorCache.get`
* `src/dswizard/core/runhistory.py`      — `RunHistory.get_incumbent_id`,
  `RunHistory.get_incumbent_trajectory`, `logged_results_to_runhistory`
* `src/hpbandster/optimizers/iterations/successiveresampling.py`
  — `SuccessiveResampling._advance_to_next_stage`

Python floats are modelled as rationals (`ℚ`), Python dicts as
insertion-ordered association lists (Python 3.7+ dicts preserve insertion
order), and raised exceptions as `Except String`.
-/

namespace DSWizard

/-- Candidate lifecycle status, the string constants used throughout
`base_iteration.py` and `model.py` (`'QUEUED'`, `'RUNNING'`, ...). -/
inductive Status where
  | QUEUED
  | RUNNING
  | REVIEW
  | TERMINATED
  | CRASHED
  | COMPLETED
deriving DecidableEq, Repr

/-- `model.py` `CandidateId`: a triplet of ints that (per its docstring)
uniquely identifies a configuration; `config` defaults to `-1`. -/
structure CandidateId where
  iteration : Int
  struct : Int
  config : Int
deriving DecidableEq, Repr

/-- `model.py` `Result`. Only the `loss` field is consumed by the bracket
state machine (`get_incumbent(...).loss`); status, configuration, runtime
and partial configs are never read by the code under verification and are
elided. -/
structure Result where
  loss : ℚ
deriving DecidableEq, Repr

/-- `model.py` `CandidateStructure`. The `configspace`, `pipeline` and
`model_based_pick` fields are opaque payloads never inspected by the
scheduler core and are elided. The Python constructor initialises `cid`
to `None`; the bracket assigns it in `_add_candidate` before the structure
is ever stored, so here it is a plain `CandidateId`. -/
structure CandidateStructure where
  budget : ℚ
  timeout : Option ℚ
  cid : CandidateId
  status : Status
  results : List (ℚ × List Result)
  timestamps : List (String × ℚ)
deriving DecidableEq, Repr

/-! ### Association-list model of Python dicts -/
/-- First-match lookup, `d[k]` read access. -/
def alookup {κ α : Type} [DecidableEq κ] : List (κ × α) → κ → Option α
  | [], _ => none
  | (k, v) :: rest, key => if k = key then some v else alookup rest key

/-- Update the first entry with the given key (in-place mutation of the
stored value object); identity when the key is absent. -/
def updateFirst {κ α : Type} [DecidableEq κ] : List (κ × α) → κ → (α → α) → List (κ × α)
  | [], _, _ => []
  | (k, v) :: rest, key, f =>
    if k = key then (k, f v) :: rest else (k, v) :: updateFirst rest key f

/-- `d[k] = v` assignment: replace the binding if present, else append
(insertion order of Python dicts). -/
def dictInsert {κ α : Type} [DecidableEq κ] (d : List (κ × α)) (k : κ) (v : α) : List (κ × α) :=
  if (alookup d k).isSome then updateFirst d k (fun _ => v) else d ++ [(k, v)]

/-! ### The bracket state machine (`base_iteration.py`) -/
/-- `BaseIteration.__init__` state. The `structure_generator`, `logger` and
`result_logger` collaborators are external (passed as parameters to the
operations that use them). -/
structure BaseIteration where
  data : List (CandidateId × CandidateStructure)
  is_finished : Bool
  iteration : Int
  stage : Nat
  budgets : List ℚ
  timeout : Option ℚ
  num_candidates : List Nat
  actual_num_candidates : List Nat
  num_running : Int
deriving DecidableEq, Repr

/-- The exact message of the `RuntimeError` raised by `register_result`. -/
def registerResultError : String :=
  "This SuccessiveHalving iteration is finished, you can not register more results!"

/-- `BaseIteration.register_result` (base_iteration.py lines 61-72): raise if
the bracket is finished, else set the candidate's status to `REVIEW` and
decrement `num_running`. The Python function mutates the passed
`CandidateStructure` object, which lives in `self.data`; here the candidate
is addressed by its id. -/
def register_result (b : BaseIteration) (cid : CandidateId) : Except String BaseIteration :=
  if b.is_finished then
    .error registerResultError
  else
    .ok { b with
      data := updateFirst b.data cid (fun cs => { cs with status := Status.REVIEW }),
      num_running := b.num_running - 1 }

/-- `BaseIteration._add_candidate` (base_iteration.py lines 112-141). The
structure generator's fresh candidate is the `newCand` parameter. Failure
modes: `RuntimeError` when finished or at capacity, `IndexError` when
`stage` is outside the parallel arrays. -/
def add_candidate (newCand : CandidateStructure) (b : BaseIteration) :
    Except String (BaseIteration × CandidateStructure) :=
  if b.is_finished then
    .error "RuntimeError: This iteration is finished, you can not add more configurations!"
  else
    match b.actual_num_candidates[b.stage]?, b.num_candidates[b.stage]? with
    | some a, some n =>
      if a = n then
        .error "RuntimeError: can not add another candidate to this stage"
      else
        match b.budgets[b.stage]? with
        | none => .error "IndexError"
        | some bud =>
          let cand : CandidateStructure :=
            { newCand with
              timeout := b.timeout,
              budget := bud,
              cid := ⟨b.iteration, (a : Int), -1⟩ }
          .ok ({ b with
                  data := dictInsert b.data cand.cid cand,
                  actual_num_candidates := b.actual_num_candidates.set b.stage (a + 1) },
               cand)
    | _, _ => .error "IndexError"

/-- Add `k` to the entry of `l` at position `i` (`l[i] += k`); identity when
`i` is out of range (the bracket's parallel arrays always have equal length,
established by the constructor, so in-range hypotheses accompany every use). -/
def bump : List Nat → Nat → Nat → List Nat
  | [], _, _ => []
  | x :: xs, 0, k => (x + k) :: xs
  | x :: xs, i + 1, k => x :: bump xs i k

/-- The `REVIEW`-status entries of `self.data`, in insertion order
(`filter(lambda cid: self.data[cid].status == 'REVIEW', self.data.keys())`). -/
def reviewPairs (b : BaseIteration) : List (CandidateId × CandidateStructure) :=
  b.data.filter (fun p => p.2.status == Status.REVIEW)

def reviewIds (b : BaseIteration) : List CandidateId :=
  (reviewPairs b).map Prod.fst

/-- `CandidateStructure.get_incumbent(budget).loss` (model.py lines 146-149):
the minimum-loss result stored for `budget`; `min` with a key returns the
first minimal element. `KeyError` when the budget is absent, `ValueError`
when its result list is empty. -/
def get_incumbent_loss (cs : CandidateStructure) (budget : ℚ) : Except String ℚ :=
  match alookup cs.results budget with
  | none => .error "KeyError"
  | some [] => .error "ValueError: min() arg is an empty sequence"
  | some (r :: rs) =>
    .ok (rs.foldl (fun best x => if x.loss < best.loss then x else best) r).loss

/-- The per-candidate advancement loop at the end of `_finish_stage`
(base_iteration.py lines 169-183): for each collected candidate, `advance[i]`
decides between promotion (status `QUEUED`, budget of the new stage, new
stage's filled counter incremented) and `TERMINATED`. Indexing `advance[i]`
past the end of the policy's vector is an `IndexError`; surplus entries are
ignored, as in Python. -/
def advanceLoop (b : BaseIteration) :
    List CandidateId → List Bool → Except String BaseIteration
  | [], _ => .ok b
  | _ :: _, [] => .error "IndexError"
  | cid :: rest, a :: as' =>
    if a then
      match b.budgets[b.stage]? with
      | none => .error "IndexError"
      | some nb =>
        advanceLoop
          { b with
            data := updateFirst b.data cid
              (fun cs => { cs with status := Status.QUEUED, budget := nb }),
            actual_num_candidates := bump b.actual_num_candidates b.stage 1 }
          rest as'
    else
      advanceLoop
        { b with
          data := updateFirst b.data cid (fun cs => { cs with status := Status.TERMINATED }) }
        rest as'

/-- `BaseIteration._finish_up` (base_iteration.py lines 185-190): set
`is_finished`, assert every candidate's status is in
`{TERMINATED, REVIEW, CRASHED}` and flip it to `COMPLETED`. -/
def finishAll : List (CandidateId × CandidateStructure) →
    Except String (List (CandidateId × CandidateStructure))
  | [] => .ok []
  | (k, v) :: rest =>
    if v.status = Status.TERMINATED ∨ v.status = Status.REVIEW ∨ v.status = Status.CRASHED then
      match finishAll rest with
      | .error e => .error e
      | .ok rest' => .ok ((k, { v with status := Status.COMPLETED }) :: rest')
    else
      .error "AssertionError: Configuration has not finished yet!"

def finish_up (b : BaseIteration) : Except String BaseIteration :=
  let b := { b with is_finished := true }
  match finishAll b.data with
  | .error e => .error e
  | .ok d => .ok { b with data := d }

/-- `BaseIteration._finish_stage` (base_iteration.py lines 143-183),
parameterised over the subclass-provided advancement policy
(`_advance_to_next_stage`): advance `stage`; collect the `REVIEW`
candidates; finish up when the new stage is past the ladder; otherwise
require a single shared budget, compute the incumbent losses at
`budgets[stage - 1]`, query the policy and run the advancement loop. -/
def finish_stage (policy : List ℚ → List Bool) (b : BaseIteration) :
    Except String BaseIteration :=
  let b1 := { b with stage := b.stage + 1 }
  let pairs := reviewPairs b1
  if b1.num_candidates.length ≤ b1.stage then
    finish_up b1
  else
    if 1 < (pairs.map (fun p => p.2.budget)).dedup.length then
      .error "RuntimeError: Not all configurations have the same budget!"
    else
      match b1.budgets[b1.stage - 1]? with
      | none => .error "IndexError"
      | some budget =>
        match pairs.mapM (fun p => get_incumbent_loss p.2 budget) with
        | .error e => .error e
        | .ok losses => advanceLoop b1 (pairs.map Prod.fst) (policy losses)

/-- `BaseIteration.get_next_candidate` (base_iteration.py lines 74-110).
`sg` supplies the structure generator's fresh candidates (indexed by the
remaining fuel so each recursive level can receive a distinct structure).
The Python recursion re-enters after `_finish_stage` advanced `stage`, so
its depth is bounded by the number of stages; `fuel` makes that bound
explicit and `"RecursionError"` is unreachable when
`fuel > num_candidates.length - stage`. -/
def get_next_candidate (policy : List ℚ → List Bool) (sg : Nat → CandidateStructure) :
    Nat → BaseIteration → Except String (BaseIteration × Option CandidateStructure)
  | 0, _ => .error "RecursionError"
  | fuel + 1, b =>
    if b.is_finished then
      .ok (b, none)
    else
      match (b.data.filter (fun p => p.2.status == Status.QUEUED)).head? with
      | some (cid, cand) =>
        match b.budgets[b.stage]? with
        | none => .error "IndexError"
        | some sb =>
          if cand.budget = sb then
            let cand' := { cand with status := Status.RUNNING }
            .ok ({ b with
                    data := updateFirst b.data cid (fun cs => { cs with status := Status.RUNNING }),
                    num_running := b.num_running + 1 },
                 some cand')
          else
            .error "AssertionError: Config budget does not align with current stage!"
      | none =>
        match b.actual_num_candidates[b.stage]?, b.num_candidates[b.stage]? with
        | some a, some n =>
          if a < n then
            match add_candidate (sg fuel) b with
            | .error e => .error e
            | .ok (b', cand) =>
              let cand' := { cand with status := Status.RUNNING }
              .ok ({ b' with
                      data := updateFirst b'.data cand.cid
                        (fun cs => { cs with status := Status.RUNNING }),
                      num_running := b'.num_running + 1 },
                   some cand')
          else if b.num_running = 0 then
            match finish_stage policy b with
            | .error e => .error e
            | .ok b' => get_next_candidate policy sg fuel b'
          else
            .ok (b, none)
        | _, _ => .error "IndexError"

/-- The spec's stage invariant `actualNumCandidates[s] ≤ numCandidates[s]`. -/
def stageInvariant (b : BaseIteration) (s : Nat) : Prop :=
  b.actual_num_candidates.getD s 0 ≤ b.num_candidates.getD s 0

instance (b : BaseIteration) (s : Nat) : Decidable (stageInvariant b s) := by
  unfold stageInvariant; infer_instance

/-! ### Concrete inputs used by counterexamples and witnesses -/
/-- A candidate structure with the given id, budget, status and results. -/
def mkCS (cid : CandidateId) (bud : ℚ) (st : Status) (res : List (ℚ × List Result)) :
    CandidateStructure :=
  { budget := bud, timeout := none, cid := cid, status := st, results := res, timestamps := [] }

/-- An advancement policy a bracket may be configured with: advance every
candidate (the abstract `_advance_to_next_stage` contract only asks for one
boolean per loss). -/
def advanceAll : List ℚ → List Bool := fun losses => losses.map (fun _ => true)

/-- A bracket with capacities `[2, 1]`, budgets `[1, 2]`, both stage-0 slots
filled and in `REVIEW` with a result at budget 1, ready for `_finish_stage`. -/
def c2bracket : BaseIteration :=
  { data := [(⟨0, 0, -1⟩, mkCS ⟨0, 0, -1⟩ 1 Status.REVIEW [(1, [⟨(2 : ℚ)/5⟩])]),
             (⟨0, 1, -1⟩, mkCS ⟨0, 1, -1⟩ 1 Status.REVIEW [(1, [⟨(3 : ℚ)/5⟩])])],
    is_finished := false, iteration := 0, stage := 0, budgets := [1, 2], timeout := none,
    num_candidates := [2, 1], actual_num_candidates := [2, 0], num_running := 0 }

/-! ### C3: `register_result` -/
/-- A small unfinished bracket with one running candidate. -/
def openBracket : BaseIteration :=
  { data := [(⟨0, 0, -1⟩, mkCS ⟨0, 0, -1⟩ 1 Status.RUNNING [])],
    is_finished := false, iteration := 0, stage := 0, budgets := [1], timeout := none,
    num_candidates := [1], actual_num_candidates := [1], num_running := 1 }

/-- The same bracket, finished. -/
def finishedBracket : BaseIteration :=
  { openBracket with is_finished := true }

/-! ### C9: candidate-id uniqueness when filling slots -/
/-- A bracket with capacities `[2, 2]`: two stage-0 candidates in `REVIEW`,
so after `_finish_stage` promotes one of them the stage-1 filled counter is
1 and a fresh slot remains. -/
def c9bracket : BaseIteration :=
  { data := [(⟨0, 0, -1⟩, mkCS ⟨0, 0, -1⟩ 1 Status.REVIEW [(1, [⟨(2 : ℚ)/5⟩])]),
             (⟨0, 1, -1⟩, mkCS ⟨0, 1, -1⟩ 1 Status.REVIEW [(1, [⟨(3 : ℚ)/5⟩])])],
    is_finished := false, iteration := 0, stage := 0, budgets := [1, 2], timeout := none,
    num_candidates := [2, 2], actual_num_candidates := [2, 0], num_running := 0 }

/-- A policy a bracket may be configured with: advance only the first
candidate (successive resampling advances fewer candidates than the next
stage's capacity by design). -/
def advanceFirstOnly : List ℚ → List Bool := fun _ => [true, false]

/-- The structure generator's fresh candidate used when filling the stage-1
slot. -/
def freshCandidate : CandidateStructure := mkCS ⟨-1, -1, -1⟩ 1 Status.QUEUED []

/-! ### C10: immutability of COMPLETED candidate structures -/
/-- `dict.setdefault(budget, []).append(result)` from
`CandidateStructure.add_result`. -/
def setdefaultAppend : List (ℚ × List Result) → ℚ → Result → List (ℚ × List Result)
  | [], b, r => [(b, [r])]
  | (k, v) :: rest, b, r =>
    if k = b then (k, v ++ [r]) :: rest else (k, v) :: setdefaultAppend rest b r

/-- `CandidateStructure.add_result` (model.py lines 151-154): append the
result to the list stored for `budget` (defaulting to the structure's
current budget). There is no status guard of any kind. -/
def add_result (cs : CandidateStructure) (result : Result) (budget : Option ℚ) :
    CandidateStructure :=
  let b := budget.getD cs.budget
  { cs with results := setdefaultAppend cs.results b result }

/-- A candidate structure that has been retired by `_finish_up`. -/
def completedCS : CandidateStructure :=
  mkCS ⟨0, 0, -1⟩ 1 Status.COMPLETED [(1, [⟨(1 : ℚ)/2⟩])]

/-! ### C1: what `_finish_stage` does to the REVIEW candidates -/
/-- Bool-valued check that the candidate stored under `cid` has status `s`. -/
def statusIs (d : List (CandidateId × CandidateStructure)) (cid : CandidateId)
    (s : Status) : Bool :=
  match alookup d cid with
  | some cs => cs.status == s
  | none => false

/-- Bracket used to witness C1: capacities `[2, 1]`, budgets `[1, 3]`, both
stage-0 slots in `REVIEW` with losses 7 and 3 at budget 1. -/
def c1bracket : BaseIteration :=
  { data := [(⟨1, 0, -1⟩, mkCS ⟨1, 0, -1⟩ 1 Status.REVIEW [(1, [⟨7⟩])]),
             (⟨1, 1, -1⟩, mkCS ⟨1, 1, -1⟩ 1 Status.REVIEW [(1, [⟨3⟩])])],
    is_finished := false, iteration := 1, stage := 0, budgets := [1, 3], timeout := none,
    num_candidates := [2, 1], actual_num_candidates := [2, 0], num_running := 0 }

/-- A concrete advancement policy: advance exactly the candidates whose loss
is below 5. -/
def pol1 : List ℚ → List Bool := fun losses => losses.map (fun q => decide (q < 5))

/-- The bracket state produced by `finish_stage pol1 c1bracket`. -/
def c1after : BaseIteration :=
  { data := [(⟨1, 0, -1⟩, mkCS ⟨1, 0, -1⟩ 1 Status.TERMINATED [(1, [⟨7⟩])]),
             (⟨1, 1, -1⟩, mkCS ⟨1, 1, -1⟩ 3 Status.QUEUED [(1, [⟨3⟩])])],
    is_finished := false, iteration := 1, stage := 1, budgets := [1, 3], timeout := none,
    num_candidates := [2, 1], actual_num_candidates := [2, 1], num_running := 0 }

/-- The spec's invariant at every stage index. -/
def InvariantHolds (b : BaseIteration) : Prop :=
  ∀ s, b.actual_num_candidates.getD s 0 ≤ b.num_candidates.getD s 0

/-- The well-formedness a bracket has in every reachable state: parallel
arrays of one length per stage, the capacity invariant, and no stage beyond
the current one filled yet (stages are only ever filled by `_add_candidate`
at the current stage or by `_finish_stage` advancing into the next one). -/
def StateOK (b : BaseIteration) : Prop :=
  b.actual_num_candidates.length = b.num_candidates.length
  ∧ InvariantHolds b
  ∧ (∀ t, b.stage < t → b.actual_num_candidates.getD t 0 = 0)

/-- The restriction on advancement policies that the counterexample
`finish_stage_capacity_violation` forces: the returned vector never holds
more `true` entries than any stage's declared capacity (successive halving
advances exactly `num_candidates[nextStage]`, satisfying this). -/
def PolicyBounded (policy : List ℚ → List Bool) (b : BaseIteration) : Prop :=
  ∀ (losses : List ℚ) (s : Nat), s < b.num_candidates.length →
    (policy losses).count true ≤ b.num_candidates.getD s 0

/-- A policy with no `true` entries at all, trivially `PolicyBounded`. -/
def dropAllPolicy : List ℚ → List Bool := fun losses => losses.map (fun _ => false)

/-! ### C4: the config cache (`config_generator_cache.py`)

`ConfigGeneratorCache.get` keys its dict by the pipeline's configuration
space; search-space identities are modelled as naturals. Each execution of
`self.clazz(configspace, pipeline, **self.init_kwargs)` constructs a fresh
engine instance; instance identity is modelled by a construction counter,
so `constructed` both counts constructions and names the instances `0, 1, …`.
The claim is about sequences of `get` calls (the master serialises all
cache access under `thread_cond`). -/
structure CacheState where
  cache : List (Nat × Nat)
  constructed : Nat
deriving DecidableEq, Repr

def emptyCache : CacheState := { cache := [], constructed := 0 }

/-- `ConfigGeneratorCache.get` (config_generator_cache.py lines 62-68):
if the search space is absent construct one engine and insert it, then
return the cached entry. -/
def cacheGet (s : CacheState) (space : Nat) : CacheState × Nat :=
  match alookup s.cache space with
  | some e => (s, e)
  | none =>
    let e := s.constructed
    ({ cache := s.cache ++ [(space, e)], constructed := e + 1 }, e)

/-- Run a sequence of `get` calls, collecting `(searchSpace, returnedEngine)`
observations. -/
def runGets : List Nat → CacheState → CacheState × List (Nat × Nat)
  | [], s => (s, [])
  | k :: ks, s =>
    let (s1, e) := cacheGet s k
    let (s2, outs) := runGets ks s1
    (s2, (k, e) :: outs)

/-! ### The run history (`runhistory.py`)

`runhistory.py` imports `ConfigId`, `Datum` and `ConfigInfo` from
`dswizard.core.model`, but `model.py` defines none of them (it has
`CandidateId`); the id triple is modelled by `CandidateId`. -/
/-- The `{submitted, started, finished}` timestamp record of one results-log
line (spec section 6). -/
structure TimeStamps where
  submitted : ℚ
  started : ℚ
  finished : ℚ
deriving DecidableEq, Repr

/-- Modelled from the spec: the `Datum` class imported by `runhistory.py`
from `dswizard.core.model` is missing from the sources. Its shape is pinned
by `logged_results_to_runhistory` (runhistory.py lines 435-445): a
per-candidate record created as `Datum(config=…, config_info=…)` with
per-budget dicts assigned by `data[id].time_stamps[budget] = …`,
`…results[budget] = result`, `…exceptions[budget] = exception`, where
`result` is the logged `loss|null` of the results-log contract (spec
section 6). The opaque `config`/`config_info` payloads are elided. -/
structure Datum where
  results : List (ℚ × Option ℚ)
  time_stamps : List (ℚ × TimeStamps)
  exceptions : List (ℚ × Option String)
deriving DecidableEq, Repr

/-- `Datum(config=…, config_info=…)` starts with empty per-budget dicts. -/
def emptyDatum : Datum := { results := [], time_stamps := [], exceptions := [] }

/-- One line of the results log:
`[[bracket, structureSlot, configSlot], budget, {submitted, started, finished}, loss|null, exceptionText|null]`. -/
structure ResultRecord where
  cid : CandidateId
  budget : ℚ
  ts : TimeStamps
  result : Option ℚ
  exception : Option String
deriving DecidableEq, Repr

/-- The `HB_config` dict built by `logged_results_to_runhistory`
(runhistory.py lines 453-460). -/
structure HBConfig where
  eta : Option ℚ
  min_budget : ℚ
  max_budget : ℚ
  budgets : List ℚ
  max_SH_iter : Nat
  time_ref : ℚ
deriving DecidableEq, Repr

structure LoadedRunHistory where
  data : List (CandidateId × Datum)
  config : HBConfig
deriving DecidableEq, Repr

/-- One results-log line folded into `data` (runhistory.py lines 438-445):
`data[id]` raises `KeyError` when the id never appeared in the configs log;
otherwise the three per-budget dicts are assigned. -/
def applyResultRecord (d : List (CandidateId × Datum)) (r : ResultRecord) :
    Except String (List (CandidateId × Datum)) :=
  match alookup d r.cid with
  | none => .error "KeyError"
  | some _ =>
    .ok (updateFirst d r.cid (fun dat =>
      { dat with
        time_stamps := dictInsert dat.time_stamps r.budget r.ts,
        results := dictInsert dat.results r.budget r.result,
        exceptions := dictInsert dat.exceptions r.budget r.exception }))

def loadResults : List (CandidateId × Datum) → List ResultRecord →
    Except String (List (CandidateId × Datum))
  | d, [] => .ok d
  | d, r :: rs =>
    match applyResultRecord d r with
    | .error e => .error e
    | .ok d' => loadResults d' rs

/-- `time_ref = min(time_ref, time_stamps['submitted'])` folded over the
results lines, starting from `float('inf')` (modelled as `none`). -/
def optMin (o : Option ℚ) (x : ℚ) : Option ℚ :=
  match o with
  | none => some x
  | some m => some (min m x)

/-- `RunHistory._merge_results` (runhistory.py lines 139-152): merge the
per-bracket maps left to right (last write wins per id) and rebase every
timestamp by subtracting `time_ref`. -/
def merge_results (maps : List (List (CandidateId × Datum))) (time_ref : ℚ) :
    List (CandidateId × Datum) :=
  let new_dict := maps.foldl
    (fun acc m => m.foldl (fun acc2 p => dictInsert acc2 p.1 p.2) acc) []
  new_dict.map (fun p =>
    (p.1, { p.2 with
            time_stamps := p.2.time_stamps.map (fun q =>
              (q.1, ⟨q.2.submitted - time_ref, q.2.started - time_ref,
                     q.2.finished - time_ref⟩)) }))

/-- `logged_results_to_runhistory` (runhistory.py lines 406-461) over the
already-parsed log lines: build `data` from the configs log, fold in the
results log, infer the bracket metadata from the observed budgets and
timestamps, and construct the run history (`RunHistory([data], HB_config)`
merges the single map and rebases its timestamps). `min()`/`max()` on an
empty budget set raise `ValueError`. -/
def logged_results_to_runhistory (configs : List CandidateId)
    (results : List ResultRecord) : Except String LoadedRunHistory :=
  let data0 := configs.foldl (fun d cid => dictInsert d cid emptyDatum) []
  match loadResults data0 results with
  | .error e => .error e
  | .ok data =>
    match (results.map (fun r => r.budget)).dedup,
          results.foldl (fun acc r => optMin acc r.ts.submitted) none with
    | q :: qs, some tr =>
      let budget_list := List.insertionSort (· ≤ ·) (q :: qs)
      if (q :: qs).length < 2 then
        .ok { data := merge_results [data] tr,
              config :=
                { eta := none,
                  min_budget := qs.foldl min q,
                  max_budget := qs.foldl max q,
                  budgets := budget_list,
                  max_SH_iter := (q :: qs).length,
                  time_ref := tr } }
      else if budget_list.getD 0 0 = 0 then
        .error "ZeroDivisionError: float division by zero"
      else
        .ok { data := merge_results [data] tr,
              config :=
                { eta := some (budget_list.getD 1 0 / budget_list.getD 0 0),
                  min_budget := qs.foldl min q,
                  max_budget := qs.foldl max q,
                  budgets := budget_list,
                  max_SH_iter := (q :: qs).length,
                  time_ref := tr } }
    | _, _ => .error "ValueError: min() arg is an empty sequence"

/-- Strict lexicographic order on id triples (`CandidateId.__lt__` is tuple
comparison). -/
def cidLt (x y : CandidateId) : Bool :=
  decide (x.iteration < y.iteration)
  || (decide (x.iteration = y.iteration)
      && (decide (x.struct < y.struct)
          || (decide (x.struct = y.struct) && decide (x.config < y.config))))

/-- Python tuple comparison on `(loss, config_id)` pairs. -/
def lossPairLt (p q : ℚ × CandidateId) : Bool :=
  decide (p.1 < q.1) || (decide (p.1 = q.1) && cidLt p.2 q.2)

/-- The accumulation loop of `RunHistory.get_incumbent_id` (runhistory.py
lines 164-172) over a run history loaded from the logs. For each datum it
evaluates `res = v.results[max_budget]` (`KeyError` is caught: the datum is
skipped) and, when `res` is not `None`, appends `(res.loss, k)`. In a loaded
history `res` is the raw logged loss — a float — and a float has no `loss`
attribute, so that append raises `AttributeError`, which the surrounding
`except KeyError` does not catch. -/
def collectIncumbents : List (CandidateId × Datum) → ℚ →
    Except String (List (ℚ × CandidateId))
  | [], _ => .ok []
  | (_, v) :: rest, mb =>
    match alookup v.results mb with
    | none => collectIncumbents rest mb
    | some none => collectIncumbents rest mb
    | some (some _) => .error "AttributeError: float object has no attribute loss"

/-- `RunHistory.get_incumbent_id` (runhistory.py lines 157-176): collect
`(loss, id)` over the data, return `min(tmp_list)[1]` when non-empty and
`None` otherwise. -/
def get_incumbent_id (data : List (CandidateId × Datum)) (max_budget : ℚ) :
    Except String (Option CandidateId) :=
  match collectIncumbents data max_budget with
  | .error e => .error e
  | .ok [] => .ok none
  | .ok (t :: ts) =>
    .ok (some (ts.foldl (fun best x => if lossPairLt x best then x else best) t).2)

/-! ### C5: `get_incumbent_id` on a loaded history -/
/-- The configs-log ids and results-log lines of a minimal run: one
candidate, one successful evaluation at budget 1 with loss 3. -/
def c5configs : List CandidateId := [⟨0, 0, 0⟩]

def c5records : List ResultRecord :=
  [{ cid := ⟨0, 0, 0⟩, budget := 1, ts := ⟨100, 101, 105⟩,
     result := some 3, exception := none }]

/-- Two-budget log used to witness C7: one candidate evaluated at budgets 1
and 3, submitted at times 100 and 90. -/
def c7configs : List CandidateId := [⟨0, 0, 0⟩]

def c7records : List ResultRecord :=
  [{ cid := ⟨0, 0, 0⟩, budget := 1, ts := ⟨100, 101, 105⟩,
     result := none, exception := some "err" },
   { cid := ⟨0, 0, 0⟩, budget := 3, ts := ⟨90, 92, 95⟩,
     result := none, exception := some "err" }]

def c7default : LoadedRunHistory :=
  { data := [],
    config := { eta := none, min_budget := 0, max_budget := 0, budgets := [],
                max_SH_iter := 0, time_ref := 0 } }

/-- The run history loaded from the witness log. -/
def c7loaded : LoadedRunHistory :=
  (logged_results_to_runhistory c7configs c7records).toOption.getD c7default

/-! ### C6: `get_incumbent_trajectory` (runhistory.py lines 178-244)

The claim concerns the scan over the finish-time-sorted run list, so the
model takes that list directly (`get_all_runs` + sort produce it). -/
/-- One run as scanned by the trajectory loop. -/
structure TrajRun where
  config_id : CandidateId
  budget : ℚ
  loss : Option ℚ
  finished : ℚ
deriving DecidableEq, Repr

/-- The `return_dict` of four parallel lists. -/
structure TrajDict where
  config_ids : List CandidateId
  times_finished : List ℚ
  budgets : List ℚ
  losses : List ℚ
deriving DecidableEq, Repr

def emptyTrajDict : TrajDict := ⟨[], [], [], []⟩

/-- `r.loss < current_incumbent` where `current_incumbent` starts at
`float('inf')` (modelled as `none`). -/
def ltInf (l : ℚ) (cur : Option ℚ) : Bool :=
  match cur with
  | none => true
  | some c => decide (l < c)

/-- `current_incumbent != r.loss` of the final fixup: `inf` differs from
everything, a float differs from `None`, two floats compare by value. -/
def neqLoss (cur : Option ℚ) (lastLoss : Option ℚ) : Bool :=
  match cur, lastLoss with
  | none, _ => true
  | some _, none => true
  | some c, some l => decide (c ≠ l)

def trajAppend (d : TrajDict) (cid : CandidateId) (t bud l : ℚ) : TrajDict :=
  ⟨d.config_ids ++ [cid], d.times_finished ++ [t],
   d.budgets ++ [bud], d.losses ++ [l]⟩

/-- One iteration of the scan (runhistory.py lines 211-233): `None` losses
are skipped; a run becomes the new incumbent iff
`((bigger_is_better ∧ budget > incumbentBudget) ∨ loss < currentIncumbent)`
and not `(non_decreasing_budget ∧ budget < incumbentBudget)`; acceptance
appends a point and updates the two running values. -/
def trajStep (bigger_is_better non_decreasing_budget : Bool)
    (st : TrajDict × Option ℚ × ℚ) (r : TrajRun) : TrajDict × Option ℚ × ℚ :=
  match r.loss with
  | none => st
  | some l =>
    let newInc := ((bigger_is_better && decide (st.2.2 < r.budget)) || ltInf l st.2.1)
      && !(non_decreasing_budget && decide (r.budget < st.2.2))
    if newInc then
      (trajAppend st.1 r.config_id r.finished r.budget l, some l, r.budget)
    else st

/-- The scan: fold over the sorted runs starting from the empty dict,
`current_incumbent = inf`, `incumbent_budget = min_budget`. -/
def trajLoop (min_budget : ℚ) (bb nd : Bool) (runs : List TrajRun) :
    TrajDict × Option ℚ × ℚ :=
  runs.foldl (trajStep bb nd) (emptyTrajDict, none, min_budget)

/-- `RunHistory.get_incumbent_trajectory` on the sorted run list: empty input
returns the empty dict; otherwise run the scan, and afterwards — with `r`
still bound to the last scanned run — if `current_incumbent != r.loss`,
append one more point repeating the last recorded id/budget/loss at the last
run's finish time (`IndexError` on `[-1]` when nothing was ever recorded). -/
def get_incumbent_trajectory (min_budget : ℚ) (bb nd : Bool)
    (all_runs : List TrajRun) : Except String TrajDict :=
  match all_runs with
  | [] => .ok emptyTrajDict
  | r0 :: rs =>
    let st := trajLoop min_budget bb nd (r0 :: rs)
    let rLast := (r0 :: rs).getLast (List.cons_ne_nil r0 rs)
    if neqLoss st.2.1 rLast.loss then
      match st.1.config_ids.getLast?, st.1.budgets.getLast?, st.1.losses.getLast? with
      | some cid, some bud, some lo =>
        .ok (trajAppend st.1 cid rLast.finished bud lo)
      | _, _, _ => .error "IndexError: list index out of range"
    else
      .ok st.1

/-! ### C8: `SuccessiveResampling._advance_to_next_stage`
(successiveresampling.py lines 30-36)

`np.argsort` is a comparison sort over the values; ties are broken
deterministically — here by index, the stable double-rank the spec
describes. An argsort is modelled as sorting the index list `0 … n-1` by
`(value, index)`; `np.argsort(np.argsort(losses))` is the rank vector. -/
def insertLe (le : Nat → Nat → Bool) (x : Nat) : List Nat → List Nat
  | [] => [x]
  | y :: ys => if le x y then x :: y :: ys else y :: insertLe le x ys

def sortLe (le : Nat → Nat → Bool) : List Nat → List Nat
  | [] => []
  | x :: xs => insertLe le x (sortLe le xs)

/-- `np.argsort` over rational values, ties broken by index. -/
def argsortQ (v : Nat → ℚ) (n : Nat) : List Nat :=
  sortLe (fun i j => decide (v i < v j) || (decide (v i = v j) && decide (i ≤ j)))
    (List.range n)

/-- `np.argsort` over natural values (the second argsort, whose input is the
first argsort's index permutation). -/
def argsortN (v : Nat → Nat) (n : Nat) : List Nat :=
  sortLe (fun i j => decide (v i < v j) || (decide (v i = v j) && decide (i ≤ j)))
    (List.range n)

/-- `ranks = np.argsort(np.argsort(losses))`. -/
def doubleRanks (losses : List ℚ) : List Nat :=
  let s1 := argsortQ (fun j => losses.getD j 0) losses.length
  argsortN (fun i => s1.getD i 0) losses.length

/-- `SuccessiveResampling._advance_to_next_stage`:
`ranks < max(min_samples_advance, num_configs[stage] * (1 - resampling_rate))`
elementwise (numpy compares the integer rank against the float threshold). -/
def sr_advance (resampling_rate min_samples_advance num_configs_stage : ℚ)
    (losses : List ℚ) : List Bool :=
  let ranks := doubleRanks losses
  (List.range losses.length).map (fun i =>
    decide ((ranks.getD i 0 : ℚ)
      < max min_samples_advance (num_configs_stage * (1 - resampling_rate))))

/-! ## Theorems -/

theorem alookup_updateFirst_self {κ α : Type} [DecidableEq κ]
    (d : List (κ × α)) (k : κ) (f : α → α) :
    alookup (updateFirst d k f) k = (alookup d k).map f := by
  induction d with
  | nil => simp [alookup, updateFirst]
  | cons hd tl ih =>
    obtain ⟨k', v⟩ := hd
    by_cases h : k' = k <;> simp [alookup, updateFirst, h, ih]

theorem alookup_updateFirst_ne {κ α : Type} [DecidableEq κ]
    (d : List (κ × α)) (k k' : κ) (f : α → α) (h : k' ≠ k) :
    alookup (updateFirst d k f) k' = alookup d k' := by
  induction d with
  | nil => simp [updateFirst]
  | cons hd tl ih =>
    obtain ⟨k₀, v⟩ := hd
    by_cases h0 : k₀ = k
    · subst h0
      simp [alookup, updateFirst, Ne.symm h]
    · simp only [updateFirst, if_neg h0]
      by_cases h1 : k₀ = k' <;> simp [alookup, h1, ih]

theorem updateFirst_keys {κ α : Type} [DecidableEq κ]
    (d : List (κ × α)) (k : κ) (f : α → α) :
    (updateFirst d k f).map Prod.fst = d.map Prod.fst := by
  induction d with
  | nil => simp [updateFirst]
  | cons hd tl ih =>
    obtain ⟨k₀, v⟩ := hd
    by_cases h : k₀ = k <;> simp [updateFirst, h, ih]

/-! ### C2: the stage-capacity invariant -/
/-- C2, counterexample. The claim quantifies over *every* advancement
policy, but `_finish_stage` increments the next stage's filled counter once
per `true` entry without any capacity check: with the advance-everything
policy on a `[2, 1]` bracket, both stage-0 candidates are promoted and
`actualNumCandidates[1] = 2 > 1 = numCandidates[1]`. -/
theorem finish_stage_capacity_violation :
    (finish_stage advanceAll c2bracket).map
      (fun b' => (decide (stageInvariant b' 1),
                  b'.actual_num_candidates.getD 1 0,
                  b'.num_candidates.getD 1 0))
      = .ok (false, 2, 1) := by
  rfl

/-- C3. `register_result` raises exactly when the bracket is finished,
always with the one fixed `RuntimeError`; otherwise it sets the candidate's
status to `REVIEW`, decrements `num_running` by one, and leaves every other
component of the bracket (and of the candidate) unchanged — the `ok` state
is literally `b` with only those two updates. -/
theorem register_result_spec (b : BaseIteration) (cid : CandidateId) :
    (b.is_finished = true → register_result b cid = .error registerResultError)
    ∧ (b.is_finished = false →
        register_result b cid =
          .ok { b with
                data := updateFirst b.data cid (fun cs => { cs with status := Status.REVIEW }),
                num_running := b.num_running - 1 }) := by
  constructor <;> intro h <;> simp [register_result, h]

/-- Witness for C3 at concrete brackets: the finished bracket rejects with
the fixed error, the open bracket moves its candidate to `REVIEW` and
decrements `num_running`. -/
theorem register_result_spec_witness :
    register_result finishedBracket ⟨0, 0, -1⟩ = .error registerResultError
    ∧ register_result openBracket ⟨0, 0, -1⟩ =
        .ok { openBracket with
              data := updateFirst openBracket.data ⟨0, 0, -1⟩
                (fun cs => { cs with status := Status.REVIEW }),
              num_running := openBracket.num_running - 1 } :=
  ⟨(register_result_spec finishedBracket ⟨0, 0, -1⟩).1 rfl,
   (register_result_spec openBracket ⟨0, 0, -1⟩).2 rfl⟩

/-- C9 fails on the code. `_add_candidate` builds
`CandidateId(iteration, actual_num_candidates[stage])` *without* a stage
component: after one of two stage-0 candidates is promoted, filling the
remaining stage-1 slot creates id `(0, 1, -1)`, which is already bound in
`data` to the stage-0 candidate number 1 — `self.data[candidate_id] = candidate`
silently overwrites it, so `data` does not grow (length stays 2). This
contradicts both the claim and `CandidateId`'s own docstring ("uniquely
identifies a configuration"). -/
theorem add_candidate_id_collision :
    ((finish_stage advanceFirstOnly c9bracket).bind (fun b1 =>
      (add_candidate freshCandidate b1).map (fun r =>
        (r.2.cid, (alookup b1.data r.2.cid).isSome, r.1.data.length, b1.data.length))))
      = .ok (⟨0, 1, -1⟩, true, 2, 2) := by
  rfl

/-- C10, counterexample. `add_result` has no `COMPLETED` guard: invoked
on a retired structure (as `Master._result_callback` does unconditionally
before registering with the bracket) it appends to the results mapping, so
a `COMPLETED` structure is not immutable. -/
theorem add_result_mutates_completed :
    completedCS.status = Status.COMPLETED
    ∧ completedCS.results = [(1, [⟨(1 : ℚ)/2⟩])]
    ∧ (add_result completedCS ⟨(3 : ℚ)/10⟩ none).results
        = [(1, [⟨(1 : ℚ)/2⟩, ⟨(3 : ℚ)/10⟩])]
    ∧ (add_result completedCS ⟨(3 : ℚ)/10⟩ none).results ≠ completedCS.results := by
  refine ⟨rfl, rfl, rfl, ?_⟩
  simp [add_result, completedCS, mkCS, setdefaultAppend]

theorem setdefaultAppend_lookup (d : List (ℚ × List Result)) (b : ℚ) (r : Result) :
    alookup (setdefaultAppend d b r) b = some ((alookup d b).getD [] ++ [r]) := by
  induction d with
  | nil => simp [setdefaultAppend, alookup]
  | cons hd tl ih =>
    obtain ⟨k, v⟩ := hd
    by_cases h : k = b <;> simp [setdefaultAppend, alookup, h, ih]

/-- C10, amended. `add_result` never changes a structure's status,
budget, id or timestamps — in particular a `COMPLETED` structure stays
`COMPLETED` — but it appends to the results mapping regardless of status:
the entry for the effective budget always grows by exactly the new result,
so the results mapping of a `COMPLETED` structure is not protected. -/
theorem add_result_effects (cs : CandidateStructure) (r : Result) (budget : Option ℚ) :
    (add_result cs r budget).status = cs.status
    ∧ (add_result cs r budget).budget = cs.budget
    ∧ (add_result cs r budget).cid = cs.cid
    ∧ (add_result cs r budget).timestamps = cs.timestamps
    ∧ alookup (add_result cs r budget).results (budget.getD cs.budget)
        = some ((alookup cs.results (budget.getD cs.budget)).getD [] ++ [r]) :=
  ⟨rfl, rfl, rfl, rfl, setdefaultAppend_lookup cs.results (budget.getD cs.budget) r⟩

theorem bump_zero (l : List Nat) (i : Nat) : bump l i 0 = l := by
  induction l generalizing i with
  | nil => simp [bump]
  | cons x xs ih => cases i <;> simp [bump, ih]

theorem bump_bump (l : List Nat) (i j k : Nat) :
    bump (bump l i j) i k = bump l i (j + k) := by
  induction l generalizing i with
  | nil => simp [bump]
  | cons x xs ih =>
    cases i with
    | zero => simp [bump, Nat.add_assoc]
    | succ n => simp [bump, ih]

theorem alookup_updateFirst_isSome {κ α : Type} [DecidableEq κ]
    (d : List (κ × α)) (k k' : κ) (f : α → α) :
    (alookup (updateFirst d k f) k').isSome = (alookup d k').isSome := by
  by_cases h : k' = k
  · subst h; rw [alookup_updateFirst_self]; cases alookup d k' <;> rfl
  · rw [alookup_updateFirst_ne d k k' f h]

/-- Everything the advancement loop of `_finish_stage` does, by induction on
the collected candidate list: the scalar bracket fields are untouched,
candidates outside the list are untouched, candidate `i` of the list is
promoted (status `QUEUED`, budget := budgets[stage]) or terminated
according to `advance[i]`, the filled counter of the (already advanced)
stage grows by the number of `true` entries consumed, and the number of
list candidates left with status `QUEUED` is exactly that same count. -/
theorem advanceLoop_spec :
    ∀ (cids : List CandidateId) (adv : List Bool) (b b' : BaseIteration),
      advanceLoop b cids adv = .ok b' →
      cids.Nodup →
      (∀ cid ∈ cids, (alookup b.data cid).isSome) →
      b'.stage = b.stage ∧ b'.budgets = b.budgets ∧ b'.num_candidates = b.num_candidates
      ∧ b'.is_finished = b.is_finished ∧ b'.num_running = b.num_running
      ∧ b'.iteration = b.iteration ∧ b'.timeout = b.timeout
      ∧ (∀ cid, cid ∉ cids → alookup b'.data cid = alookup b.data cid)
      ∧ (∀ (i : Nat) (cid : CandidateId) (a : Bool),
           cids[i]? = some cid → adv[i]? = some a →
           ∃ cs, alookup b.data cid = some cs
             ∧ alookup b'.data cid = some (if a then
                 { cs with status := Status.QUEUED, budget := b.budgets.getD b.stage 0 }
               else
                 { cs with status := Status.TERMINATED })
             ∧ (a = true → b.budgets[b.stage]? = some (b.budgets.getD b.stage 0)))
      ∧ b'.actual_num_candidates
          = bump b.actual_num_candidates b.stage ((adv.take cids.length).count true)
      ∧ (cids.filter (fun cid => statusIs b'.data cid Status.QUEUED)).length
          = (adv.take cids.length).count true := by
  intro cids
  induction cids with
  | nil =>
    intro adv b b' hok _ _
    simp only [advanceLoop, Except.ok.injEq] at hok
    subst hok
    refine ⟨rfl, rfl, rfl, rfl, rfl, rfl, rfl, fun _ _ => rfl, ?_, ?_, ?_⟩
    · intro i cid a hcid _; simp at hcid
    · simp [bump_zero]
    · simp
  | cons cid rest ih =>
    intro adv b b' hok hnodup hsome
    match adv with
    | [] => simp [advanceLoop] at hok
    | a :: as' =>
      have hcid_not_rest : cid ∉ rest := (List.nodup_cons.mp hnodup).1
      have hrest_nodup : rest.Nodup := (List.nodup_cons.mp hnodup).2
      obtain ⟨cs₀, hcs₀⟩ := Option.isSome_iff_exists.mp
        (hsome cid (List.mem_cons_self cid rest))
      cases a with
      | true =>
        simp only [advanceLoop, if_true] at hok
        cases hnb : b.budgets[b.stage]? with
        | none => rw [hnb] at hok; simp at hok
        | some nb =>
          rw [hnb] at hok
          simp only at hok
          set b₁ : BaseIteration :=
            { b with
              data := updateFirst b.data cid
                (fun cs => { cs with status := Status.QUEUED, budget := nb }),
              actual_num_candidates := bump b.actual_num_candidates b.stage 1 } with hb₁
          have hsome₁ : ∀ c ∈ rest, (alookup b₁.data c).isSome := by
            intro c hc
            have := alookup_updateFirst_isSome b.data cid c
              (fun cs => { cs with status := Status.QUEUED, budget := nb })
            rw [hb₁]
            simp only []
            rw [this]
            exact hsome c (List.mem_cons_of_mem _ hc)
          obtain ⟨h1, h2, h3, h4, h5, h6, h7, hout, hidx, hact, hfilt⟩ :=
            ih as' b₁ b' hok hrest_nodup hsome₁
          have hb₁cid : alookup b₁.data cid
              = some { cs₀ with status := Status.QUEUED, budget := nb } := by
            rw [hb₁]; simp only []
            rw [alookup_updateFirst_self, hcs₀]; rfl
          have hb'cid : alookup b'.data cid
              = some { cs₀ with status := Status.QUEUED, budget := nb } := by
            rw [hout cid hcid_not_rest, hb₁cid]
          have hgetD : b.budgets.getD b.stage 0 = nb := by
            rw [List.getD_eq_getElem?_getD, hnb]; rfl
          refine ⟨h1, h2, h3, h4, h5, h6, h7, ?_, ?_, ?_, ?_⟩
          · intro c hc
            rw [hout c (fun hm => hc (List.mem_cons_of_mem _ hm))]
            rw [hb₁]; simp only []
            exact alookup_updateFirst_ne b.data cid c _
              (fun he => hc (he ▸ List.mem_cons_self cid rest))
          · intro i c av hc hav
            match i with
            | 0 =>
              simp only [List.getElem?_cons_zero, Option.some.injEq] at hc hav
              subst hc; subst hav
              refine ⟨cs₀, hcs₀, ?_, fun _ => ?_⟩
              · rw [hb'cid]; simp [hgetD, hnb]
              · rw [hgetD]
            | i + 1 =>
              simp only [List.getElem?_cons_succ] at hc hav
              obtain ⟨cs₁, hcs₁, hcs₁', hbud₁⟩ := hidx i c av hc hav
              have hcmem : c ∈ rest := List.getElem?_mem hc
              have hcne : c ≠ cid := fun he => hcid_not_rest (he ▸ hcmem)
              have heq : alookup b₁.data c = alookup b.data c := by
                rw [hb₁]; simp only []
                exact alookup_updateFirst_ne b.data cid c _ hcne
              have hb₁bud : b₁.budgets = b.budgets := by rw [hb₁]
              have hb₁stg : b₁.stage = b.stage := by rw [hb₁]
              rw [heq] at hcs₁
              rw [hb₁bud, hb₁stg] at hcs₁' hbud₁
              rw [hnb] at hbud₁
              exact ⟨cs₁, hcs₁, hcs₁', hbud₁⟩
          · rw [hact]
            have hstg : b₁.stage = b.stage := by rw [hb₁]
            have hac : b₁.actual_num_candidates = bump b.actual_num_candidates b.stage 1 := by
              rw [hb₁]
            rw [hstg, hac, bump_bump]
            congr 1
            simp [List.count_cons, Nat.add_comm]
          · have hhead : statusIs b'.data cid Status.QUEUED = true := by
              simp [statusIs, hb'cid]
            simp only [List.filter_cons, hhead, List.take_succ_cons, List.count_cons,
              List.length_cons]
            simp [hfilt]
      | false =>
        simp only [advanceLoop, if_false] at hok
        set b₁ : BaseIteration :=
          { b with
            data := updateFirst b.data cid
              (fun cs => { cs with status := Status.TERMINATED }) } with hb₁
        have hsome₁ : ∀ c ∈ rest, (alookup b₁.data c).isSome := by
          intro c hc
          have := alookup_updateFirst_isSome b.data cid c
            (fun cs => { cs with status := Status.TERMINATED })
          rw [hb₁]
          simp only []
          rw [this]
          exact hsome c (List.mem_cons_of_mem _ hc)
        obtain ⟨h1, h2, h3, h4, h5, h6, h7, hout, hidx, hact, hfilt⟩ :=
          ih as' b₁ b' hok hrest_nodup hsome₁
        have hb₁cid : alookup b₁.data cid
            = some { cs₀ with status := Status.TERMINATED } := by
          rw [hb₁]; simp only []
          rw [alookup_updateFirst_self, hcs₀]; rfl
        have hb'cid : alookup b'.data cid
            = some { cs₀ with status := Status.TERMINATED } := by
          rw [hout cid hcid_not_rest, hb₁cid]
        refine ⟨h1, h2, h3, h4, h5, h6, h7, ?_, ?_, ?_, ?_⟩
        · intro c hc
          rw [hout c (fun hm => hc (List.mem_cons_of_mem _ hm))]
          rw [hb₁]; simp only []
          exact alookup_updateFirst_ne b.data cid c _
            (fun he => hc (he ▸ List.mem_cons_self cid rest))
        · intro i c av hc hav
          match i with
          | 0 =>
            simp only [List.getElem?_cons_zero, Option.some.injEq] at hc hav
            subst hc; subst hav
            refine ⟨cs₀, hcs₀, ?_, fun h => by cases h⟩
            rw [hb'cid]; simp
          | i + 1 =>
            simp only [List.getElem?_cons_succ] at hc hav
            obtain ⟨cs₁, hcs₁, hcs₁', hbud₁⟩ := hidx i c av hc hav
            have hcmem : c ∈ rest := List.getElem?_mem hc
            have hcne : c ≠ cid := fun he => hcid_not_rest (he ▸ hcmem)
            have heq : alookup b₁.data c = alookup b.data c := by
              rw [hb₁]; simp only []
              exact alookup_updateFirst_ne b.data cid c _ hcne
            have hb₁bud : b₁.budgets = b.budgets := by rw [hb₁]
            have hb₁stg : b₁.stage = b.stage := by rw [hb₁]
            rw [heq] at hcs₁
            rw [hb₁bud, hb₁stg] at hcs₁' hbud₁
            exact ⟨cs₁, hcs₁, hcs₁', hbud₁⟩
        · rw [hact]
          have hstg : b₁.stage = b.stage := by rw [hb₁]
          have hac : b₁.actual_num_candidates = b.actual_num_candidates := by rw [hb₁]
          rw [hstg, hac]
          congr 1
        · have hhead : statusIs b'.data cid Status.QUEUED = false := by
            simp [statusIs, hb'cid]
          simp only [List.filter_cons, hhead, List.take_succ_cons, List.count_cons,
            List.length_cons]
          simp [hfilt]

theorem bump_getD_self (l : List Nat) (i k : Nat) (h : i < l.length) :
    (bump l i k).getD i 0 = l.getD i 0 + k := by
  induction l generalizing i with
  | nil => simp at h
  | cons x xs ih =>
    cases i with
    | zero => simp [bump]
    | succ n =>
      simp only [bump, List.getD_cons_succ]
      exact ih n (by simpa using h)

theorem alookup_isSome_of_mem {κ α : Type} [DecidableEq κ]
    {d : List (κ × α)} {k : κ} {v : α} (h : (k, v) ∈ d) :
    (alookup d k).isSome := by
  induction d with
  | nil => simp at h
  | cons hd tl ih =>
    obtain ⟨k0, v0⟩ := hd
    by_cases hk : k0 = k
    · simp [alookup, hk]
    · simp only [List.mem_cons] at h
      rcases h with h | h
      · exact absurd (congrArg Prod.fst h).symm hk
      · simpa [alookup, hk] using ih h

/-- C1. Whenever `_finish_stage` succeeds with the new stage still inside
the ladder, writing `R` for the `REVIEW` candidates it collected and
`advance` for the boolean vector the policy returned on their incumbent
losses (one entry per candidate): the number of `R`-candidates left with
status `QUEUED` equals the number of `true` entries of `advance`; candidate
`i` of `R` ends `QUEUED` with its budget set to the ladder's next-stage
budget when `advance[i]` is `true` and ends `TERMINATED` when it is `false`;
and the next stage's filled counter grows by exactly the number of `true`
entries. -/
theorem finish_stage_advancement (policy : List ℚ → List Bool) (b b' : BaseIteration)
    (hkeys : (b.data.map Prod.fst).Nodup)
    (hactlen : b.actual_num_candidates.length = b.num_candidates.length)
    (hstage : b.stage + 1 < b.num_candidates.length)
    (hok : finish_stage policy b = .ok b')
    (losses : List ℚ) (bud : ℚ)
    (hbud : b.budgets[b.stage]? = some bud)
    (hloss : (reviewPairs b).mapM (fun p => get_incumbent_loss p.2 bud) = .ok losses)
    (hlen : (policy losses).length = (reviewIds b).length) :
    ((reviewIds b).filter (fun cid => statusIs b'.data cid Status.QUEUED)).length
        = (policy losses).count true
    ∧ (∀ (i : Nat) (cid : CandidateId) (a : Bool),
         (reviewIds b)[i]? = some cid → (policy losses)[i]? = some a →
         ∃ cs, alookup b'.data cid = some cs
           ∧ cs.status = (if a then Status.QUEUED else Status.TERMINATED)
           ∧ (a = true → b.budgets[b.stage + 1]? = some cs.budget))
    ∧ b'.actual_num_candidates.getD (b.stage + 1) 0
        = b.actual_num_candidates.getD (b.stage + 1) 0 + (policy losses).count true
    ∧ b'.num_running = b.num_running
    ∧ b'.is_finished = b.is_finished := by
  have hrp : reviewPairs { b with stage := b.stage + 1 } = reviewPairs b := rfl
  simp only [finish_stage, hrp] at hok
  rw [if_neg (by omega)] at hok
  by_cases hded : 1 < ((reviewPairs b).map (fun p => p.2.budget)).dedup.length
  · rw [if_pos hded] at hok; cases hok
  · rw [if_neg hded] at hok
    simp only [Nat.add_sub_cancel] at hok
    rw [hbud] at hok
    dsimp only at hok
    rw [hloss] at hok
    dsimp only at hok
    have hsub : List.Sublist (reviewPairs b) b.data := List.filter_sublist _
    have hkeysR : ((reviewPairs b).map Prod.fst).Nodup :=
      hkeys.sublist (hsub.map Prod.fst)
    have hsomeR : ∀ cid ∈ (reviewPairs b).map Prod.fst,
        (alookup ({ b with stage := b.stage + 1 } : BaseIteration).data cid).isSome := by
      intro cid hcid
      simp only [List.mem_map] at hcid
      obtain ⟨p, hp, hpe⟩ := hcid
      have hmem : p ∈ b.data := hsub.subset hp
      subst hpe
      exact alookup_isSome_of_mem hmem
    obtain ⟨h1, h2, h3, h4, h5, h6, h7, hout, hidx, hact, hfilt⟩ :=
      advanceLoop_spec ((reviewPairs b).map Prod.fst) (policy losses)
        { b with stage := b.stage + 1 } b' hok hkeysR hsomeR
    have htake : (policy losses).take ((reviewPairs b).map Prod.fst).length
        = policy losses := by
      rw [show ((reviewPairs b).map Prod.fst).length = (reviewIds b).length from rfl, ← hlen]
      exact List.take_length (policy losses)
    refine ⟨?_, ?_, ?_, h5, h4⟩
    · rw [show reviewIds b = (reviewPairs b).map Prod.fst from rfl]
      rw [hfilt, htake]
    · intro i cid a hc ha
      obtain ⟨cs, hcs, hcs', hbud'⟩ := hidx i cid a
        (by simpa [reviewIds] using hc) ha
      cases a with
      | true =>
        refine ⟨_, hcs', rfl, fun _ => ?_⟩
        have := hbud' rfl
        simpa using this
      | false => exact ⟨_, hcs', rfl, fun h => by cases h⟩
    · rw [hact, htake]
      exact bump_getD_self b.actual_num_candidates (b.stage + 1)
        ((policy losses).count true) (by omega)

/-- Witness for C1 at `c1bracket`: one `true` entry, one candidate left
`QUEUED`, and the stage-1 filled counter went from 0 to 1. -/
theorem finish_stage_advancement_witness :
    ((reviewIds c1bracket).filter
        (fun cid => statusIs c1after.data cid Status.QUEUED)).length = 1
    ∧ c1after.actual_num_candidates.getD 1 0
        = c1bracket.actual_num_candidates.getD 1 0 + 1 :=
  ⟨(finish_stage_advancement pol1 c1bracket c1after (by decide) (by decide) (by decide)
      (by rfl) [7, 3] 1 (by rfl) (by rfl) (by rfl)).1,
   (finish_stage_advancement pol1 c1bracket c1after (by decide) (by decide) (by decide)
      (by rfl) [7, 3] 1 (by rfl) (by rfl) (by rfl)).2.2.1⟩

theorem bump_length (l : List Nat) (i k : Nat) : (bump l i k).length = l.length := by
  induction l generalizing i with
  | nil => simp [bump]
  | cons x xs ih => cases i <;> simp [bump, ih]

theorem bump_getD_ne (l : List Nat) (i j k : Nat) (h : j ≠ i) :
    (bump l i k).getD j 0 = l.getD j 0 := by
  induction l generalizing i j with
  | nil => simp [bump]
  | cons x xs ih =>
    cases i with
    | zero =>
      cases j with
      | zero => exact absurd rfl h
      | succ m => simp [bump]
    | succ n =>
      cases j with
      | zero => simp [bump]
      | succ m =>
        simp only [bump, List.getD_cons_succ]
        exact ih n m (fun he => h (by omega))

theorem set_eq_bump (l : List Nat) (i a : Nat) (h : l[i]? = some a) :
    l.set i (a + 1) = bump l i 1 := by
  induction l generalizing i with
  | nil => simp at h
  | cons x xs ih =>
    cases i with
    | zero =>
      simp only [List.getElem?_cons_zero, Option.some.injEq] at h
      subst h; simp [bump]
    | succ n =>
      simp only [List.getElem?_cons_succ] at h
      simp [bump, List.set_cons_succ, ih n h]

theorem register_result_StateOK (b b' : BaseIteration) (cid : CandidateId)
    (hok : register_result b cid = .ok b') (hS : StateOK b) : StateOK b' := by
  unfold register_result at hok
  by_cases hf : b.is_finished
  · rw [if_pos hf] at hok; cases hok
  · rw [if_neg hf] at hok
    cases hok
    exact hS

theorem add_candidate_StateOK (nc : CandidateStructure) (b b' : BaseIteration)
    (c : CandidateStructure)
    (hok : add_candidate nc b = .ok (b', c)) (hS : StateOK b) :
    StateOK b' ∧ b'.num_candidates = b.num_candidates ∧ b'.stage = b.stage := by
  obtain ⟨hlen, hinv, hzero⟩ := hS
  unfold add_candidate at hok
  by_cases hf : b.is_finished
  · rw [if_pos hf] at hok; cases hok
  · rw [if_neg hf] at hok
    cases ha : b.actual_num_candidates[b.stage]? with
    | none => rw [ha] at hok; cases hn : b.num_candidates[b.stage]? <;> rw [hn] at hok <;>
        cases hok
    | some a =>
      rw [ha] at hok
      cases hn : b.num_candidates[b.stage]? with
      | none => rw [hn] at hok; cases hok
      | some n =>
        rw [hn] at hok
        dsimp only at hok
        by_cases han : a = n
        · rw [if_pos han] at hok; cases hok
        · rw [if_neg han] at hok
          cases hb : b.budgets[b.stage]? with
          | none => rw [hb] at hok; cases hok
          | some bud =>
            rw [hb] at hok
            dsimp only at hok
            cases hok
            have hset : b.actual_num_candidates.set b.stage (a + 1)
                = bump b.actual_num_candidates b.stage 1 := set_eq_bump _ _ _ ha
            have hstg : b.stage < b.actual_num_candidates.length :=
              List.getElem?_eq_some_iff.mp ha |>.1
            have hgd : b.actual_num_candidates.getD b.stage 0 = a := by
              rw [List.getD_eq_getElem?_getD, ha]; rfl
            have hgdn : b.num_candidates.getD b.stage 0 = n := by
              rw [List.getD_eq_getElem?_getD, hn]; rfl
            refine ⟨⟨?_, ?_, ?_⟩, rfl, rfl⟩
            · dsimp only
              simp only [hset, bump_length]; exact hlen
            · intro s
              dsimp only
              simp only [hset]
              by_cases hs : s = b.stage
              · subst hs
                rw [bump_getD_self _ _ _ hstg, hgd, hgdn]
                have := hinv b.stage
                rw [hgd, hgdn] at this
                omega
              · rw [bump_getD_ne _ _ _ _ hs]
                exact hinv s
            · intro t ht
              dsimp only at ht ⊢
              simp only [hset]
              rw [bump_getD_ne _ _ _ _ (by omega)]
              exact hzero t ht

theorem count_take_le (l : List Bool) (n : Nat) :
    (l.take n).count true ≤ l.count true :=
  List.Sublist.count_le (List.take_sublist n l) true

theorem finish_up_fields (b b' : BaseIteration) (hok : finish_up b = .ok b') :
    b'.stage = b.stage ∧ b'.num_candidates = b.num_candidates
    ∧ b'.actual_num_candidates = b.actual_num_candidates := by
  simp only [finish_up] at hok
  cases hfa : finishAll b.data with
  | error e => rw [hfa] at hok; cases hok
  | ok d => rw [hfa] at hok; cases hok; exact ⟨rfl, rfl, rfl⟩

/-- The advancement loop changes only `data` and the current stage's filled
counter; stated without any distinctness hypotheses so that it is usable for
the invariant proof. -/
theorem advanceLoop_actual :
    ∀ (cids : List CandidateId) (adv : List Bool) (b b' : BaseIteration),
      advanceLoop b cids adv = .ok b' →
      b'.stage = b.stage
      ∧ b'.actual_num_candidates
          = bump b.actual_num_candidates b.stage ((adv.take cids.length).count true)
      ∧ b'.num_candidates = b.num_candidates := by
  intro cids
  induction cids with
  | nil =>
    intro adv b b' hok
    simp only [advanceLoop, Except.ok.injEq] at hok
    subst hok
    exact ⟨rfl, by simp [bump_zero], rfl⟩
  | cons cid rest ih =>
    intro adv b b' hok
    match adv with
    | [] => simp [advanceLoop] at hok
    | a :: as' =>
      cases a with
      | true =>
        simp only [advanceLoop, if_true] at hok
        cases hnb : b.budgets[b.stage]? with
        | none => rw [hnb] at hok; simp at hok
        | some nb =>
          rw [hnb] at hok
          simp only at hok
          obtain ⟨e1, e2, e3⟩ := ih as' _ b' hok
          refine ⟨e1, ?_, e3⟩
          rw [e2]
          simp only []
          rw [bump_bump]
          congr 1
          simp [List.count_cons, Nat.add_comm]
      | false =>
        simp only [advanceLoop, if_false] at hok
        obtain ⟨e1, e2, e3⟩ := ih as' _ b' hok
        refine ⟨e1, ?_, e3⟩
        rw [e2]
        congr 1

theorem finish_stage_StateOK (policy : List ℚ → List Bool) (b b' : BaseIteration)
    (hok : finish_stage policy b = .ok b') (hS : StateOK b)
    (hP : PolicyBounded policy b) :
    StateOK b' ∧ b'.num_candidates = b.num_candidates := by
  obtain ⟨hlen, hinv, hzero⟩ := hS
  have hrp : reviewPairs { b with stage := b.stage + 1 } = reviewPairs b := rfl
  simp only [finish_stage, hrp] at hok
  by_cases hst : b.num_candidates.length ≤ b.stage + 1
  · rw [if_pos hst] at hok
    obtain ⟨e1, e2, e3⟩ := finish_up_fields _ _ hok
    have e1' : b'.stage = b.stage + 1 := e1
    have e2' : b'.num_candidates = b.num_candidates := e2
    have e3' : b'.actual_num_candidates = b.actual_num_candidates := e3
    refine ⟨⟨?_, ?_, ?_⟩, e2'⟩
    · rw [e3', e2']; exact hlen
    · intro s; rw [e3', e2']; exact hinv s
    · intro t ht
      rw [e3']
      refine hzero t ?_
      omega
  · rw [if_neg hst] at hok
    by_cases hded : 1 < ((reviewPairs b).map (fun p => p.2.budget)).dedup.length
    · rw [if_pos hded] at hok; cases hok
    · rw [if_neg hded] at hok
      simp only [Nat.add_sub_cancel] at hok
      cases hb : b.budgets[b.stage]? with
      | none => rw [hb] at hok; cases hok
      | some bud =>
        rw [hb] at hok
        dsimp only at hok
        cases hls : (reviewPairs b).mapM (fun p => get_incumbent_loss p.2 bud) with
        | error e => rw [hls] at hok; cases hok
        | ok losses =>
          rw [hls] at hok
          dsimp only at hok
          obtain ⟨ha1, ha2, ha3⟩ := advanceLoop_actual _ _ _ _ hok
          dsimp only at ha1 ha2 ha3
          have hktrue : (((policy losses).take
              ((reviewPairs b).map Prod.fst).length).count true)
              ≤ b.num_candidates.getD (b.stage + 1) 0 :=
            le_trans (count_take_le _ _) (hP losses (b.stage + 1) (by omega))
          refine ⟨⟨?_, ?_, ?_⟩, ha3⟩
          · rw [ha2, bump_length, ha3]; exact hlen
          · intro s
            rw [ha2, ha3]
            by_cases hs : s = b.stage + 1
            · subst hs
              rw [bump_getD_self _ _ _ (by omega), hzero _ (by omega)]
              simpa using hktrue
            · rw [bump_getD_ne _ _ _ _ hs]
              exact hinv s
          · intro t ht
            rw [ha2]
            rw [bump_getD_ne _ _ _ _ (by omega)]
            exact hzero t (by omega)

theorem get_next_candidate_StateOK (policy : List ℚ → List Bool)
    (sg : Nat → CandidateStructure) :
    ∀ (fuel : Nat) (b b' : BaseIteration) (oc : Option CandidateStructure),
      get_next_candidate policy sg fuel b = .ok (b', oc) →
      StateOK b → PolicyBounded policy b → StateOK b' := by
  intro fuel
  induction fuel with
  | zero => intro b b' oc hok _ _; simp [get_next_candidate] at hok
  | succ fuel ih =>
    intro b b' oc hok hS hP
    unfold get_next_candidate at hok
    by_cases hf : b.is_finished
    · rw [if_pos hf] at hok
      cases hok
      exact hS
    · rw [if_neg hf] at hok
      cases hq : (b.data.filter (fun p => p.2.status == Status.QUEUED)).head? with
      | some pc =>
        obtain ⟨cid, cand⟩ := pc
        rw [hq] at hok
        dsimp only at hok
        cases hsb : b.budgets[b.stage]? with
        | none => rw [hsb] at hok; cases hok
        | some sb =>
          rw [hsb] at hok
          dsimp only at hok
          by_cases hbe : cand.budget = sb
          · rw [if_pos hbe] at hok
            cases hok
            exact hS
          · rw [if_neg hbe] at hok; cases hok
      | none =>
        rw [hq] at hok
        dsimp only at hok
        cases ha : b.actual_num_candidates[b.stage]? with
        | none =>
          rw [ha] at hok
          cases hn : b.num_candidates[b.stage]? <;> rw [hn] at hok <;> cases hok
        | some a =>
          rw [ha] at hok
          cases hn : b.num_candidates[b.stage]? with
          | none => rw [hn] at hok; cases hok
          | some n =>
            rw [hn] at hok
            dsimp only at hok
            by_cases hlt : a < n
            · rw [if_pos hlt] at hok
              cases hadd : add_candidate (sg fuel) b with
              | error e => rw [hadd] at hok; cases hok
              | ok bc =>
                obtain ⟨b₁, cand⟩ := bc
                rw [hadd] at hok
                dsimp only at hok
                cases hok
                exact (add_candidate_StateOK _ _ _ _ hadd ⟨hS.1, hS.2.1, hS.2.2⟩).1
            · rw [if_neg hlt] at hok
              by_cases hnr : b.num_running = 0
              · rw [if_pos hnr] at hok
                cases hfs : finish_stage policy b with
                | error e => rw [hfs] at hok; cases hok
                | ok b₁ =>
                  rw [hfs] at hok
                  dsimp only at hok
                  obtain ⟨hS₁, hnum₁⟩ := finish_stage_StateOK policy b b₁ hfs hS hP
                  have hP₁ : PolicyBounded policy b₁ := by
                    intro losses s hs
                    rw [hnum₁] at hs ⊢
                    exact hP losses s hs
                  exact ih b₁ b' oc hok hS₁ hP₁
              · rw [if_neg hnr] at hok
                cases hok
                exact hS

/-- C2, amended. The invariant `actualNumCandidates[s] ≤ numCandidates[s]`
holds after every bracket operation — candidate creation, `getNextCandidate`,
`registerResult` and `finishStage` — for every well-formed bracket state
(`StateOK`: equal array lengths, invariant holding, stages beyond the current
one unfilled, all true in every reachable state) and every advancement policy
whose returned vector never carries more `true` entries than a stage's
declared capacity (`PolicyBounded`, satisfied by successive halving). The
counterexample shows the original unrestricted quantification over policies
is false. -/
theorem stage_capacity_invariant (policy : List ℚ → List Bool) (b : BaseIteration)
    (hS : StateOK b) (hP : PolicyBounded policy b) :
    (∀ (cid : CandidateId) (b' : BaseIteration),
        register_result b cid = .ok b' → InvariantHolds b')
    ∧ (∀ (nc : CandidateStructure) (b' : BaseIteration) (c : CandidateStructure),
        add_candidate nc b = .ok (b', c) → InvariantHolds b')
    ∧ (∀ (b' : BaseIteration), finish_stage policy b = .ok b' → InvariantHolds b')
    ∧ (∀ (sg : Nat → CandidateStructure) (fuel : Nat) (b' : BaseIteration)
          (oc : Option CandidateStructure),
        get_next_candidate policy sg fuel b = .ok (b', oc) → InvariantHolds b') :=
  ⟨fun cid b' hok => (register_result_StateOK b b' cid hok hS).2.1,
   fun nc b' c hok => (add_candidate_StateOK nc b b' c hok hS).1.2.1,
   fun b' hok => (finish_stage_StateOK policy b b' hok hS hP).1.2.1,
   fun sg fuel b' oc hok => (get_next_candidate_StateOK policy sg fuel b b' oc hok hS hP).2.1⟩

/-- Witness for the amended C2 at the concrete open bracket: after
`register_result` the invariant still holds. -/
theorem stage_capacity_invariant_witness :
    InvariantHolds { openBracket with
      data := updateFirst openBracket.data ⟨0, 0, -1⟩
        (fun cs => { cs with status := Status.REVIEW }),
      num_running := openBracket.num_running - 1 } :=
  (stage_capacity_invariant dropAllPolicy openBracket
    ⟨rfl,
     fun s => by
       match s with
       | 0 => decide
       | s + 1 => simp [openBracket, List.getD],
     fun t ht => by
       match t, ht with
       | t + 1, _ => simp [openBracket, List.getD]⟩
    (fun losses s _ => by simp [dropAllPolicy, List.count_replicate])).1
    ⟨0, 0, -1⟩ _ rfl

theorem alookup_append_of_some {κ α : Type} [DecidableEq κ]
    {d : List (κ × α)} {k : κ} {e : α} (d2 : List (κ × α))
    (h : alookup d k = some e) : alookup (d ++ d2) k = some e := by
  induction d with
  | nil => simp [alookup] at h
  | cons hd tl ih =>
    obtain ⟨k0, v0⟩ := hd
    by_cases hk : k0 = k
    · simp [alookup, hk] at h ⊢; exact h
    · simp [alookup, hk] at h ⊢; exact ih h

theorem alookup_append_of_none {κ α : Type} [DecidableEq κ]
    {d : List (κ × α)} {k : κ} (d2 : List (κ × α))
    (h : alookup d k = none) : alookup (d ++ d2) k = alookup d2 k := by
  induction d with
  | nil => simp [alookup]
  | cons hd tl ih =>
    obtain ⟨k0, v0⟩ := hd
    by_cases hk : k0 = k
    · simp [alookup, hk] at h
    · simp [alookup, hk] at h ⊢; exact ih h

theorem not_mem_keys_of_alookup_none {κ α : Type} [DecidableEq κ]
    {d : List (κ × α)} {k : κ} (h : alookup d k = none) :
    k ∉ d.map Prod.fst := by
  induction d with
  | nil => simp
  | cons hd tl ih =>
    obtain ⟨k0, v0⟩ := hd
    by_cases hk : k0 = k
    · simp [alookup, hk] at h
    · intro hmem
      simp only [List.map_cons, List.mem_cons] at hmem
      rcases hmem with h1 | h1
      · exact hk h1.symm
      · exact ih (by simpa [alookup, hk] using h) h1

theorem cacheGet_lookup_persist (s : CacheState) (space k e : Nat)
    (h : alookup s.cache k = some e) :
    alookup (cacheGet s space).1.cache k = some e := by
  unfold cacheGet
  cases hc : alookup s.cache space with
  | some e' => simpa using h
  | none => simpa using alookup_append_of_some _ h

theorem cacheGet_returns_cached (s : CacheState) (space : Nat) :
    alookup (cacheGet s space).1.cache space = some (cacheGet s space).2 := by
  unfold cacheGet
  cases hc : alookup s.cache space with
  | some e => simpa using hc
  | none =>
    simp only
    rw [alookup_append_of_none _ hc]
    simp [alookup]

theorem cacheGet_keys_nodup (s : CacheState) (space : Nat)
    (h : (s.cache.map Prod.fst).Nodup) :
    ((cacheGet s space).1.cache.map Prod.fst).Nodup := by
  unfold cacheGet
  cases hc : alookup s.cache space with
  | some e => simpa using h
  | none =>
    simp only [List.map_append, List.map_cons, List.map_nil]
    rw [List.nodup_append]
    refine ⟨h, List.nodup_singleton _, ?_⟩
    intro a ha hb
    simp at hb
    subst hb
    exact not_mem_keys_of_alookup_none hc ha

theorem cacheGet_count (s : CacheState) (space : Nat)
    (h : s.constructed = s.cache.length) :
    (cacheGet s space).1.constructed = (cacheGet s space).1.cache.length := by
  unfold cacheGet
  cases hc : alookup s.cache space with
  | some e => simpa using h
  | none => simp [h]

theorem runGets_lookup_persist (ks : List Nat) (s : CacheState) (k e : Nat)
    (h : alookup s.cache k = some e) :
    alookup (runGets ks s).1.cache k = some e := by
  induction ks generalizing s with
  | nil => simpa [runGets] using h
  | cons k0 ks ih =>
    simp only [runGets]
    exact ih _ (cacheGet_lookup_persist s k0 k e h)

/-- C4. Starting from the empty cache, any sequence of `get` calls:
(i) returns, for every call, exactly the engine recorded in the *final*
cache for that call's search space — so any two calls with the same
search-space identity observe the same instance; (ii) leaves the cache
keyed without duplicates with the construction counter equal to the number
of cached entries — so exactly one engine was ever constructed per distinct
search-space identity present, and a repeated `get` never constructs again. -/
theorem cache_single_flight (ks : List Nat) :
    (∀ p ∈ (runGets ks emptyCache).2,
        alookup (runGets ks emptyCache).1.cache p.1 = some p.2)
    ∧ (∀ p ∈ (runGets ks emptyCache).2, ∀ q ∈ (runGets ks emptyCache).2,
        p.1 = q.1 → p.2 = q.2)
    ∧ ((runGets ks emptyCache).1.cache.map Prod.fst).Nodup
    ∧ (runGets ks emptyCache).1.constructed = (runGets ks emptyCache).1.cache.length := by
  have main : ∀ (ks : List Nat) (s : CacheState),
      (s.cache.map Prod.fst).Nodup → s.constructed = s.cache.length →
      (∀ p ∈ (runGets ks s).2, alookup (runGets ks s).1.cache p.1 = some p.2)
      ∧ ((runGets ks s).1.cache.map Prod.fst).Nodup
      ∧ (runGets ks s).1.constructed = (runGets ks s).1.cache.length := by
    intro ks
    induction ks with
    | nil => intro s h1 h2; exact ⟨by simp [runGets], h1, h2⟩
    | cons k0 ks ih =>
      intro s h1 h2
      obtain ⟨ihA, ihB, ihC⟩ :=
        ih (cacheGet s k0).1 (cacheGet_keys_nodup s k0 h1) (cacheGet_count s k0 h2)
      refine ⟨?_, ?_, ?_⟩
      · intro p hp
        simp only [runGets, List.mem_cons] at hp ⊢
        rcases hp with hp | hp
        · subst hp
          exact runGets_lookup_persist ks (cacheGet s k0).1 k0 (cacheGet s k0).2
            (cacheGet_returns_cached s k0)
        · exact ihA p hp
      · simpa [runGets] using ihB
      · simpa [runGets] using ihC
  obtain ⟨hA, hB, hC⟩ := main ks emptyCache (by simp [emptyCache]) (by simp [emptyCache])
  refine ⟨hA, ?_, hB, hC⟩
  intro p hp q hq hpq
  have h1 := hA p hp
  have h2 := hA q hq
  rw [hpq] at h1
  rw [h1] at h2
  exact Option.some_inj.mp h2

/-- Witness for C4: three calls, the first and third with the same
search-space identity — one construction for that identity, both calls
return engine `0`, the second identity gets engine `1`, two constructions
in total. -/
theorem cache_single_flight_witness :
    (runGets [5, 7, 5] emptyCache).2 = [(5, 0), (7, 1), (5, 0)]
    ∧ (runGets [5, 7, 5] emptyCache).1.constructed = 2
    ∧ alookup (runGets [5, 7, 5] emptyCache).1.cache 5 = some 0 :=
  ⟨rfl, rfl, (cache_single_flight [5, 7, 5]).1 (5, 0) (by decide)⟩

/-- C5 is right about the intent and the code breaks it. Loading a log
with a single successful result at the (maximum) budget and asking for the
incumbent id raises `AttributeError`: `get_incumbent_id` evaluates
`res.loss` on the raw float loss that `logged_results_to_runhistory` stored
in `results[budget]`, and the `except KeyError` around it does not catch
that — instead of returning the minimum-loss id as the claim (and the
method's own docstring) promises. -/
theorem get_incumbent_id_raises_on_loaded_history :
    (logged_results_to_runhistory c5configs c5records).map
      (fun rh => get_incumbent_id rh.data rh.config.max_budget)
      = .ok (.error "AttributeError: float object has no attribute loss") := by
  rfl

/-! ### C7: metadata reconstructed by the loader -/
theorem foldl_min_le : ∀ (qs : List ℚ) (q : ℚ), ∀ x ∈ q :: qs, qs.foldl min q ≤ x := by
  intro qs
  induction qs with
  | nil => intro q x hx; simp at hx; simp [hx]
  | cons a qs ih =>
    intro q x hx
    simp only [List.mem_cons] at hx
    simp only [List.foldl_cons]
    rcases hx with hx | hx | hx
    · rw [hx]
      exact le_trans (ih (min q a) (min q a) (by simp)) (min_le_left _ _)
    · rw [hx]
      exact le_trans (ih (min q a) (min q a) (by simp)) (min_le_right _ _)
    · exact ih (min q a) x (by simp [hx])

theorem foldl_min_mem : ∀ (qs : List ℚ) (q : ℚ), qs.foldl min q ∈ q :: qs := by
  intro qs
  induction qs with
  | nil => intro q; simp
  | cons a qs ih =>
    intro q
    have hm := ih (min q a)
    simp only [List.foldl_cons]
    simp only [List.mem_cons] at hm ⊢
    rcases hm with h1 | h1
    · rcases min_choice q a with hc | hc
      · exact Or.inl (h1.trans hc)
      · exact Or.inr (Or.inl (h1.trans hc))
    · exact Or.inr (Or.inr h1)

theorem foldl_max_le : ∀ (qs : List ℚ) (q : ℚ), ∀ x ∈ q :: qs, x ≤ qs.foldl max q := by
  intro qs
  induction qs with
  | nil => intro q x hx; simp at hx; simp [hx]
  | cons a qs ih =>
    intro q x hx
    simp only [List.mem_cons] at hx
    simp only [List.foldl_cons]
    rcases hx with hx | hx | hx
    · rw [hx]
      exact le_trans (le_max_left _ _) (ih (max q a) (max q a) (by simp))
    · rw [hx]
      exact le_trans (le_max_right _ _) (ih (max q a) (max q a) (by simp))
    · exact ih (max q a) x (by simp [hx])

theorem foldl_max_mem : ∀ (qs : List ℚ) (q : ℚ), qs.foldl max q ∈ q :: qs := by
  intro qs
  induction qs with
  | nil => intro q; simp
  | cons a qs ih =>
    intro q
    have hm := ih (max q a)
    simp only [List.foldl_cons]
    simp only [List.mem_cons] at hm ⊢
    rcases hm with h1 | h1
    · rcases max_choice q a with hc | hc
      · exact Or.inl (h1.trans hc)
      · exact Or.inr (Or.inl (h1.trans hc))
    · exact Or.inr (Or.inr h1)

theorem optMin_fold_some (l : List ℚ) : ∀ (m tr : ℚ),
    l.foldl optMin (some m) = some tr →
    (tr = m ∨ tr ∈ l) ∧ tr ≤ m ∧ ∀ x ∈ l, tr ≤ x := by
  induction l with
  | nil =>
    intro m tr h
    simp only [List.foldl_nil, Option.some.injEq] at h
    subst h
    exact ⟨Or.inl rfl, le_refl _, by simp⟩
  | cons a l ih =>
    intro m tr h
    simp only [List.foldl_cons, optMin] at h
    obtain ⟨h1, h2, h3⟩ := ih (min m a) tr h
    refine ⟨?_, le_trans h2 (min_le_left _ _), ?_⟩
    · rcases h1 with h1 | h1
      · rcases min_choice m a with hc | hc <;> rw [hc] at h1 <;> simp [h1]
      · simp [h1]
    · intro x hx
      simp only [List.mem_cons] at hx
      rcases hx with hx | hx
      · subst hx; exact le_trans h2 (min_le_right _ _)
      · exact h3 x hx

theorem optMin_fold_none (l : List ℚ) (tr : ℚ) (h : l.foldl optMin none = some tr) :
    tr ∈ l ∧ ∀ x ∈ l, tr ≤ x := by
  cases l with
  | nil => simp [List.foldl_nil] at h
  | cons a l =>
    simp only [List.foldl_cons, optMin] at h
    obtain ⟨h1, h2, h3⟩ := optMin_fold_some l a tr h
    refine ⟨?_, ?_⟩
    · rcases h1 with h1 | h1 <;> simp [h1]
    · intro x hx
      simp only [List.mem_cons] at hx
      rcases hx with hx | hx
      · subst hx; exact h2
      · exact h3 x hx

/-- C7. Whenever loading the two logs succeeds, the reconstructed bracket
metadata is determined purely by the observed records: for any strictly
sorted enumeration `bl` of the distinct observed budgets, `eta` is
`bl[1]/bl[0]` when at least two distinct budgets occur and undefined (`none`)
otherwise; `minBudget`/`maxBudget` are a lower/upper bound of the observed
budgets and are themselves observed; and `timeRef` is a lower bound of the
`submitted` timestamps and is itself one of them (i.e. the earliest). -/
theorem loader_metadata (configs : List CandidateId) (results : List ResultRecord)
    (rh : LoadedRunHistory)
    (hok : logged_results_to_runhistory configs results = .ok rh)
    (bl : List ℚ) (hsorted : bl.Sorted (· < ·))
    (hmem : ∀ x, x ∈ bl ↔ ∃ r ∈ results, r.budget = x) :
    ((2 ≤ bl.length → rh.config.eta = some (bl.getD 1 0 / bl.getD 0 0))
      ∧ (bl.length < 2 → rh.config.eta = none))
    ∧ ((∀ r ∈ results, rh.config.min_budget ≤ r.budget)
        ∧ ∃ r ∈ results, rh.config.min_budget = r.budget)
    ∧ ((∀ r ∈ results, r.budget ≤ rh.config.max_budget)
        ∧ ∃ r ∈ results, rh.config.max_budget = r.budget)
    ∧ ((∀ r ∈ results, rh.config.time_ref ≤ r.ts.submitted)
        ∧ ∃ r ∈ results, rh.config.time_ref = r.ts.submitted) := by
  simp only [logged_results_to_runhistory] at hok
  cases hld : loadResults
      (configs.foldl (fun d cid => dictInsert d cid emptyDatum) []) results with
  | error e => rw [hld] at hok; cases hok
  | ok data =>
    rw [hld] at hok
    dsimp only at hok
    cases hdd : (results.map (fun r => r.budget)).dedup with
    | nil =>
      rw [hdd] at hok
      cases hfold : results.foldl (fun acc r => optMin acc r.ts.submitted) none <;>
        rw [hfold] at hok <;> cases hok
    | cons q qs =>
      rw [hdd] at hok
      cases hfold : results.foldl (fun acc r => optMin acc r.ts.submitted) none with
      | none => rw [hfold] at hok; cases hok
      | some tr =>
        rw [hfold] at hok
        dsimp only at hok
        -- shared facts about the distinct-budget list
        have hnd : (q :: qs).Nodup := hdd ▸ List.nodup_dedup _
        have hmem' : ∀ x, x ∈ q :: qs ↔ ∃ r ∈ results, r.budget = x := by
          intro x
          rw [← hdd, List.mem_dedup, List.mem_map]
        have hperm : List.Perm (List.insertionSort (· ≤ ·) (q :: qs)) (q :: qs) :=
          List.perm_insertionSort _ _
        have hsortedI : (List.insertionSort (· ≤ ·) (q :: qs)).Sorted (· < ·) :=
          ((List.sorted_insertionSort _ _).and (hperm.nodup_iff.mpr hnd)).imp
            (fun h => lt_of_le_of_ne h.1 h.2)
        have hblnd : bl.Nodup := hsorted.imp ne_of_lt
        have hblperm : List.Perm bl (q :: qs) :=
          (List.perm_ext_iff_of_nodup hblnd hnd).mpr
            (fun a => (hmem a).trans (hmem' a).symm)
        have hbl : bl = List.insertionSort (· ≤ ·) (q :: qs) :=
          List.eq_of_perm_of_sorted (hblperm.trans hperm.symm) hsorted hsortedI
        have hbllen : bl.length = (q :: qs).length := hblperm.length_eq
        have hmin : (∀ r ∈ results, qs.foldl min q ≤ r.budget)
            ∧ ∃ r ∈ results, qs.foldl min q = r.budget := by
          constructor
          · intro r hr
            exact foldl_min_le qs q r.budget ((hmem' r.budget).mpr ⟨r, hr, rfl⟩)
          · obtain ⟨r, hr, hrb⟩ := (hmem' (qs.foldl min q)).mp (foldl_min_mem qs q)
            exact ⟨r, hr, hrb.symm⟩
        have hmax : (∀ r ∈ results, r.budget ≤ qs.foldl max q)
            ∧ ∃ r ∈ results, qs.foldl max q = r.budget := by
          constructor
          · intro r hr
            exact foldl_max_le qs q r.budget ((hmem' r.budget).mpr ⟨r, hr, rfl⟩)
          · obtain ⟨r, hr, hrb⟩ := (hmem' (qs.foldl max q)).mp (foldl_max_mem qs q)
            exact ⟨r, hr, hrb.symm⟩
        have hfold' : (results.map (fun r => r.ts.submitted)).foldl optMin none
            = some tr := by
          rw [List.foldl_map]
          exact hfold
        obtain ⟨htrm, htrle⟩ := optMin_fold_none _ tr hfold'
        have htr : (∀ r ∈ results, tr ≤ r.ts.submitted)
            ∧ ∃ r ∈ results, tr = r.ts.submitted := by
          constructor
          · intro r hr
            exact htrle r.ts.submitted (List.mem_map.mpr ⟨r, hr, rfl⟩)
          · obtain ⟨r, hr, hrs⟩ := List.mem_map.mp htrm
            exact ⟨r, hr, hrs.symm⟩
        by_cases hlen2 : (q :: qs).length < 2
        · rw [if_pos hlen2] at hok
          cases hok
          exact ⟨⟨fun h2 => absurd h2 (by omega), fun _ => rfl⟩, hmin, hmax, htr⟩
        · rw [if_neg hlen2] at hok
          by_cases hz : (List.insertionSort (· ≤ ·) (q :: qs)).getD 0 0 = 0
          · rw [if_pos hz] at hok; cases hok
          · rw [if_neg hz] at hok
            cases hok
            refine ⟨⟨fun _ => ?_, fun h2 => absurd h2 (by omega)⟩, hmin, hmax, htr⟩
            rw [hbl]

/-- Witness for C7 at the two-budget log: `eta = 3/1`, the minimum budget is
bounded by the observed budget 1, the maximum bounds the observed budget 3,
and `timeRef` is bounded by the earliest submission 90. -/
theorem loader_metadata_witness :
    c7loaded.config.eta = some ((3 : ℚ) / 1)
    ∧ c7loaded.config.min_budget ≤ 1
    ∧ 3 ≤ c7loaded.config.max_budget
    ∧ c7loaded.config.time_ref ≤ 90 := by
  have T := loader_metadata c7configs c7records c7loaded rfl [1, 3]
    (by decide)
    (by intro x; simp [c7records]; tauto)
  refine ⟨T.1.1 (by decide), ?_, ?_, ?_⟩
  · exact T.2.1.1 ⟨⟨0, 0, 0⟩, 1, ⟨100, 101, 105⟩, none, some "err"⟩ (by decide)
  · exact T.2.2.1.1 ⟨⟨0, 0, 0⟩, 3, ⟨90, 92, 95⟩, none, some "err"⟩ (by decide)
  · exact T.2.2.2.1 ⟨⟨0, 0, 0⟩, 3, ⟨90, 92, 95⟩, none, some "err"⟩ (by decide)

/-- C6, counterexample. Two runs with equal losses 5 at finish times 1
and 2; the first is accepted as incumbent, the second is not (5 < 5 fails),
so the final accepted run is *not* the last scanned — yet no extension point
is appended, because the fixup tests `current_incumbent != r.loss` and the
last run's loss happens to equal the incumbent's: the trajectory ends with
one point at time 1 instead of the two points the claim requires. -/
theorem trajectory_extension_skipped :
    get_incumbent_trajectory 1 true true
        [⟨⟨0, 0, 0⟩, 1, some 5, 1⟩, ⟨⟨0, 1, 0⟩, 1, some 5, 2⟩]
      = .ok ⟨[⟨0, 0, 0⟩], [1], [1], [5]⟩
    ∧ (trajLoop 1 true true
        [⟨⟨0, 0, 0⟩, 1, some 5, 1⟩, ⟨⟨0, 1, 0⟩, 1, some 5, 2⟩]).1.times_finished
      = [1]
    ∧ (([⟨⟨0, 0, 0⟩, 1, some 5, 1⟩, ⟨⟨0, 1, 0⟩, 1, some 5, 2⟩] : List TrajRun).map
        (fun r => r.finished)).getLast? = some 2 :=
  ⟨rfl, rfl, rfl⟩

/-- C6, amended. For a non-empty sorted run list the extension point is
appended **iff the final incumbent loss differs from the last scanned run's
loss** (with `inf` differing from everything and a number differing from
`None`): when it differs, exactly one extra point repeating the last
recorded id/budget/loss at the last run's finish time is appended; when it
is equal — in particular whenever the final accepted run *is* the last
scanned run, but also when the last run's loss merely ties the incumbent's —
no point is appended. -/
theorem trajectory_extension (min_budget : ℚ) (bb nd : Bool)
    (r0 : TrajRun) (rs : List TrajRun)
    (st : TrajDict × Option ℚ × ℚ)
    (hst : trajLoop min_budget bb nd (r0 :: rs) = st)
    (rLast : TrajRun)
    (hlast : (r0 :: rs).getLast (List.cons_ne_nil r0 rs) = rLast) :
    (neqLoss st.2.1 rLast.loss = false →
       get_incumbent_trajectory min_budget bb nd (r0 :: rs) = .ok st.1)
    ∧ (neqLoss st.2.1 rLast.loss = true →
       ∀ (cid : CandidateId) (bud lo : ℚ),
         st.1.config_ids.getLast? = some cid →
         st.1.budgets.getLast? = some bud →
         st.1.losses.getLast? = some lo →
         get_incumbent_trajectory min_budget bb nd (r0 :: rs)
           = .ok (trajAppend st.1 cid rLast.finished bud lo)) := by
  subst hst
  subst hlast
  constructor
  · intro hneq
    simp only [get_incumbent_trajectory, hneq, Bool.false_eq_true, if_false]
  · intro hneq cid bud lo h1 h2 h3
    simp only [get_incumbent_trajectory, hneq, if_true, h1, h2, h3]

/-- Witness for the amended C6: losses 5 then 7 — the second run is not
accepted, the final incumbent loss 5 differs from the last run's loss 7, and
exactly one extension point at the last run's finish time 2 is appended. -/
theorem trajectory_extension_witness :
    get_incumbent_trajectory 1 true true
        [⟨⟨0, 0, 0⟩, 1, some 5, 1⟩, ⟨⟨0, 1, 0⟩, 1, some 7, 2⟩]
      = .ok ⟨[⟨0, 0, 0⟩, ⟨0, 0, 0⟩], [1, 2], [1, 1], [5, 5]⟩ :=
  (trajectory_extension 1 true true ⟨⟨0, 0, 0⟩, 1, some 5, 1⟩
      [⟨⟨0, 1, 0⟩, 1, some 7, 2⟩]
      (⟨[⟨0, 0, 0⟩], [1], [1], [5]⟩, some 5, 1) rfl
      ⟨⟨0, 1, 0⟩, 1, some 7, 2⟩ rfl).2 rfl ⟨0, 0, 0⟩ 1 5 rfl rfl rfl

theorem mem_insertLe (le : Nat → Nat → Bool) (x : Nat) (l : List Nat) (a : Nat) :
    a ∈ insertLe le x l ↔ a = x ∨ a ∈ l := by
  induction l with
  | nil => simp [insertLe]
  | cons y ys ih =>
    by_cases h : le x y
    · simp [insertLe, h]
    · simp [insertLe, h, ih]
      tauto

theorem mem_sortLe (le : Nat → Nat → Bool) (l : List Nat) (a : Nat) :
    a ∈ sortLe le l ↔ a ∈ l := by
  induction l with
  | nil => simp [sortLe]
  | cons x xs ih => simp [sortLe, mem_insertLe, ih]

theorem insertLe_congr (le1 le2 : Nat → Nat → Bool) (x : Nat) (l : List Nat)
    (h : ∀ b ∈ l, le1 x b = le2 x b) : insertLe le1 x l = insertLe le2 x l := by
  induction l with
  | nil => simp [insertLe]
  | cons y ys ih =>
    have hy : le1 x y = le2 x y := h y (by simp)
    by_cases hc : le1 x y
    · simp [insertLe, hc, hy ▸ hc]
    · have hc2 : ¬ le2 x y = true := by rw [← hy]; exact hc
      simp only [insertLe, if_neg hc, if_neg hc2]
      rw [ih (fun b hb => h b (by simp [hb]))]

theorem sortLe_congr (le1 le2 : Nat → Nat → Bool) (l : List Nat)
    (h : ∀ a ∈ l, ∀ b ∈ l, le1 a b = le2 a b) : sortLe le1 l = sortLe le2 l := by
  induction l with
  | nil => simp [sortLe]
  | cons x xs ih =>
    simp only [sortLe]
    rw [ih (fun a ha b hb => h a (by simp [ha]) b (by simp [hb]))]
    exact insertLe_congr le1 le2 x (sortLe le2 xs)
      (fun b hb => h x (by simp) b (by simp [(mem_sortLe le2 xs b).mp hb]))

theorem getD_map_of_lt (l : List ℚ) (f : ℚ → ℚ) (j : Nat) (h : j < l.length) :
    (l.map f).getD j 0 = f (l.getD j 0) := by
  rw [List.getD_eq_getElem?_getD, List.getD_eq_getElem?_getD, List.getElem?_map]
  cases hj : l[j]? with
  | none => exact absurd hj (by simp [h])
  | some x => rfl

/-- C8. The boolean advancement vector of successive resampling is
invariant under every strictly increasing transformation of the losses (in
particular multiplication by a positive constant): a strictly monotone map
preserves every `<` and `=` comparison between losses, so both argsorts —
and therefore the stable double-rank and the rank-threshold test — are
unchanged. -/
theorem sr_advance_monotone_invariant
    (resampling_rate min_samples_advance num_configs_stage : ℚ)
    (losses : List ℚ) (f : ℚ → ℚ) (hf : StrictMono f) :
    sr_advance resampling_rate min_samples_advance num_configs_stage (losses.map f)
      = sr_advance resampling_rate min_samples_advance num_configs_stage losses := by
  have hlen : (losses.map f).length = losses.length := List.length_map losses f
  have hsort : argsortQ (fun j => (losses.map f).getD j 0) (losses.map f).length
      = argsortQ (fun j => losses.getD j 0) losses.length := by
    unfold argsortQ
    rw [hlen]
    apply sortLe_congr
    intro i hi j hj
    simp only [List.mem_range] at hi hj
    dsimp only
    rw [getD_map_of_lt losses f i hi, getD_map_of_lt losses f j hj]
    have h1 : decide (f (losses.getD i 0) < f (losses.getD j 0))
        = decide (losses.getD i 0 < losses.getD j 0) :=
      decide_eq_decide.mpr hf.lt_iff_lt
    have h2 : decide (f (losses.getD i 0) = f (losses.getD j 0))
        = decide (losses.getD i 0 = losses.getD j 0) :=
      decide_eq_decide.mpr hf.injective.eq_iff
    rw [h1, h2]
  have hranks : doubleRanks (losses.map f) = doubleRanks losses := by
    unfold doubleRanks
    rw [hsort, hlen]
  unfold sr_advance
  rw [hranks, hlen]

/-- Witness for C8: doubling-plus-one is strictly increasing and leaves the
advancement vector of the loss list `[5, 3, 3, 8]` unchanged. -/
theorem sr_advance_monotone_invariant_witness :
    sr_advance ((1 : ℚ)/2) 1 4 ([5, 3, 3, 8].map (fun q => 2 * q + 1))
      = sr_advance ((1 : ℚ)/2) 1 4 [5, 3, 3, 8] :=
  sr_advance_monotone_invariant ((1 : ℚ)/2) 1 4 [5, 3, 3, 8] (fun q => 2 * q + 1)
    (by intro a b h; dsimp only; linarith)

end DSWizard
